import Mathlib

set_option maxRecDepth 100000
set_option maxHeartbeats 2000000

/-!
# OptiNetSim — shallow embedding of `app.py`

The core simulation functions of the OptiNetSim optical-network simulator
(`create_topology`, `assign_wavelengths`, `qos_metrics`,
`simulate_node_failure` from `app.py`) are embedded as executable Lean
definitions, and the testable properties of the specification are settled
against them.

Modelling conventions:
* A `networkx.Graph` is represented by `Graph`: the insertion-ordered list of
  node identifiers and the insertion-ordered list of links.  A link is stored
  under its normalised unordered key (`ekey`) together with its optional
  `wavelength` attribute, mirroring the attribute dictionary of networkx.
* Python `range(a, b)` is `pyRange a b`; Python floor division `//` and
  modulo `%` on integers coincide with Lean's `/` and `%` on `ℤ`.
* `random.choice(seq)` is modelled by `random_choice`: an oracle `pick`
  supplies an arbitrary natural number per call, reduced modulo the sequence
  length; with an empty sequence it fails (`none`), as `random.choice` raises.
  Quantifying over all oracles covers every possible sequence of random draws.
* Python floats in `qos_metrics` are modelled by `ℚ`: every quantity involved
  (halving, doubling, subtraction, `max` with integers in a small range) is
  exact in binary floating point, so rational arithmetic is faithful.
-/

/-- Python `range(a, b)` as a list of integers. -/
def pyRange (a b : ℤ) : List ℤ :=
  (List.range (b - a).toNat).map (fun k : ℕ => a + (k : ℤ))

/-- A link of the graph: the normalised unordered endpoint pair together with
its optional `wavelength` attribute. -/
abbrev Link := (ℤ × ℤ) × Option String

/-- An undirected `networkx.Graph`: insertion-ordered node list and
insertion-ordered link list.  The node list never contains duplicates and the
link keys are pairwise distinct for every graph produced by the model, since
`addNode`/`addEdge` deduplicate exactly like networkx does. -/
structure Graph where
  nodes : List ℤ
  edges : List Link
deriving DecidableEq

/-- The normalised (sorted) unordered key of an edge between `a` and `b`,
mirroring how networkx identifies the undirected edge `{a, b}`. -/
def ekey (a b : ℤ) : ℤ × ℤ :=
  if a ≤ b then (a, b) else (b, a)

/-- The list of link keys of a graph, in insertion order. -/
def linkKeys (G : Graph) : List (ℤ × ℤ) :=
  G.edges.map Prod.fst

/-- `networkx.Graph.add_node`: appends the node unless it is already present. -/
def addNode (G : Graph) (v : ℤ) : Graph :=
  if v ∈ G.nodes then G else ⟨G.nodes ++ [v], G.edges⟩

/-- `networkx.Graph.add_edge(a, b, wavelength=None)`: inserts missing
endpoints, then either resets the attribute of the existing edge or appends a
fresh edge with `wavelength = None`. -/
def addEdge (G : Graph) (a b : ℤ) : Graph :=
  let G1 := addNode (addNode G a) b
  if ekey a b ∈ linkKeys G1 then
    ⟨G1.nodes, G1.edges.map (fun e => if e.1 = ekey a b then (e.1, none) else e)⟩
  else
    ⟨G1.nodes, G1.edges ++ [(ekey a b, none)]⟩

/-- `create_topology(nodes, topology_type)` from `app.py`:
starts from nodes `1..N` and wires the requested topology kind; an
unrecognised kind leaves the graph without links. -/
def create_topology (nodes : ℤ) (topology_type : String) : Graph :=
  let G : Graph := ⟨pyRange 1 (nodes + 1), []⟩
  if topology_type = "Ring" then
    (pyRange 1 (nodes + 1)).foldl (fun G i => addEdge G i ((i % nodes) + 1)) G
  else if topology_type = "Mesh" then
    (pyRange 1 (nodes + 1)).foldl
      (fun G i => (pyRange (i + 1) (nodes + 1)).foldl (fun G j => addEdge G i j) G) G
  else if topology_type = "Star" then
    (pyRange 2 (nodes + 1)).foldl (fun G i => addEdge G 1 i) G
  else if topology_type = "PON" then
    (pyRange 2 (nodes + 1)).foldl (fun G i => addEdge G 1 i) G
  else if topology_type = "WRPON" then
    let middle := nodes / 2
    let G1 := (pyRange 2 (middle + 2)).foldl (fun G i => addEdge G 1 i) G
    (pyRange 2 (middle + 2)).foldl
      (fun G i => (pyRange (middle + 2) (nodes + 1)).foldl (fun G j => addEdge G i j) G) G1
  else if topology_type = "Broadcast Select PON" then
    (pyRange 2 (nodes + 1)).foldl (fun G i => addEdge G 1 i) G
  else
    G

/-- `random.choice(ws)` driven by one oracle value `k`: an element of `ws`
selected by `k`, or failure when `ws` is empty (Python raises `IndexError`). -/
def random_choice (ws : List String) (k : ℕ) : Option String :=
  ws[k % ws.length]?

/-- The loop body of `assign_wavelengths`: assigns a freshly drawn wavelength
to each link in order, threading the oracle position; fails as soon as a draw
fails. -/
def assignEdges (ws : List String) (pick : ℕ → ℕ) : ℕ → List Link → Option (List Link)
  | _, [] => some []
  | i, e :: es =>
    match random_choice ws (pick i) with
    | none => none
    | some w =>
      match assignEdges ws pick (i + 1) es with
      | none => none
      | some rest => some ((e.1, some w) :: rest)

/-- `assign_wavelengths(G, wavelengths)` from `app.py`: every link receives a
randomly chosen wavelength; `pick` is the randomness oracle. -/
def assign_wavelengths (G : Graph) (wavelengths : List String) (pick : ℕ → ℕ) :
    Option Graph :=
  match assignEdges wavelengths pick 0 G.edges with
  | none => none
  | some es => some ⟨G.nodes, es⟩

/-- `qos_metrics(traffic_load, hops, wavelength_conversion)` from `app.py`. -/
def qos_metrics (traffic_load hops : ℚ) (wavelength_conversion : Bool) : ℚ × ℚ :=
  (hops * (if wavelength_conversion then 1 / 2 else 1),
   max 0 (100 - traffic_load * 2))

/-- `simulate_node_failure(G, failed_node)` from `app.py`: if the node is
present, `networkx.Graph.remove_node` deletes it together with every incident
link; otherwise the graph is returned unchanged. -/
def simulate_node_failure (G : Graph) (failed_node : ℤ) : Graph :=
  if failed_node ∈ G.nodes then
    ⟨G.nodes.filter (fun x => x ≠ failed_node),
     G.edges.filter (fun e => e.1.1 ≠ failed_node ∧ e.1.2 ≠ failed_node)⟩
  else
    G

/-- Number of links of `G` incident to node `v`. -/
def linkDegree (G : Graph) (v : ℤ) : ℕ :=
  (G.edges.filter (fun e => e.1.1 = v ∨ e.1.2 = v)).length

/-- Neighbours of `v` along a list of link keys. -/
def nbrsKeys (ks : List (ℤ × ℤ)) (v : ℤ) : List ℤ :=
  ks.foldr (fun k acc => if k.1 = v then k.2 :: acc else if k.2 = v then k.1 :: acc else acc) []

/-- Nodes reachable from the seed set `s` in at most `n` expansion rounds
along the link keys `ks`. -/
def reachSet (ks : List (ℤ × ℤ)) (s : List ℤ) : ℕ → List ℤ
  | 0 => s
  | n + 1 => reachSet ks ((s ++ s.flatMap (nbrsKeys ks)).dedup) n

/-- Every node of `G` is reachable from `v` along links of `G`. -/
def connectedFrom (G : Graph) (v : ℤ) : Prop :=
  ∀ u ∈ G.nodes, u ∈ reachSet (linkKeys G) [v] G.nodes.length

instance (G : Graph) (v : ℤ) : Decidable (connectedFrom G v) := by
  unfold connectedFrom; infer_instance

/-- A fixed randomness oracle used for concrete runs. -/
def pick0 : ℕ → ℕ := fun _ => 0

/-- The six topology kinds recognised by `create_topology`. -/
def topologyKinds : List String :=
  ["Ring", "Mesh", "Star", "PON", "WRPON", "Broadcast Select PON"]

/-- The GraphModel invariant: every link references only nodes present in the
graph. -/
def endpointInv (G : Graph) : Prop :=
  ∀ e ∈ G.edges, e.1.1 ∈ G.nodes ∧ e.1.2 ∈ G.nodes

/-- The ordered pairs `(i, j)` with `1 ≤ i < j ≤ n`, in the iteration order of
the Mesh branch of `create_topology`. -/
def meshPairs (n : ℤ) : List (ℤ × ℤ) :=
  (pyRange 1 (n + 1)).flatMap (fun i => (pyRange (i + 1) (n + 1)).map (fun j => (i, j)))

/-! ## Basic lemmas about the embedding -/

lemma mem_pyRange {a b i : ℤ} : i ∈ pyRange a b ↔ a ≤ i ∧ i < b := by
  unfold pyRange
  rw [List.mem_map]
  constructor
  · rintro ⟨k, hk, rfl⟩
    rw [List.mem_range] at hk
    omega
  · rintro ⟨h1, h2⟩
    refine ⟨(i - a).toNat, List.mem_range.mpr (by omega), by omega⟩

lemma pyRange_nodup (a b : ℤ) : (pyRange a b).Nodup := by
  unfold pyRange
  refine List.Nodup.map ?_ (List.nodup_range _)
  intro x y h
  simp only at h
  omega

lemma pyRange_eq_nil {a b : ℤ} (h : b ≤ a) : pyRange a b = [] := by
  simp only [pyRange]
  have : (b - a).toNat = 0 := by omega
  simp [this]

lemma ekey_of_le {a b : ℤ} (h : a ≤ b) : ekey a b = (a, b) := if_pos h

lemma addNode_of_mem {G : Graph} {v : ℤ} (h : v ∈ G.nodes) : addNode G v = G := by
  simp [addNode, h]

lemma addEdge_nodes {G : Graph} {a b : ℤ} (ha : a ∈ G.nodes) (hb : b ∈ G.nodes) :
    (addEdge G a b).nodes = G.nodes := by
  simp only [addEdge, addNode_of_mem ha, addNode_of_mem hb]
  split <;> rfl

lemma addEdge_fresh {G : Graph} {a b : ℤ} (ha : a ∈ G.nodes) (hb : b ∈ G.nodes)
    (hf : ekey a b ∉ linkKeys G) :
    addEdge G a b = ⟨G.nodes, G.edges ++ [(ekey a b, none)]⟩ := by
  simp only [addEdge, addNode_of_mem ha, addNode_of_mem hb]
  rw [if_neg hf]

/-- Folding a step that keeps the node list fixed keeps the node list fixed. -/
lemma foldl_nodes {α : Type} (l : List α) (f : Graph → α → Graph) (G0 : Graph)
    (h : ∀ G x, x ∈ l → G.nodes = G0.nodes → (f G x).nodes = G0.nodes) :
    ∀ G : Graph, G.nodes = G0.nodes → (l.foldl f G).nodes = G0.nodes := by
  induction l with
  | nil => intro G hG; simpa using hG
  | cons x xs ih =>
    intro G hG
    simp only [List.foldl_cons]
    exact ih (fun G' y hy => h G' y (List.mem_cons_of_mem _ hy))
      (f G x) (h G x (List.mem_cons_self _ _) hG)

/-- Folding `addEdge` over a list of fresh, pairwise-distinct unordered pairs
whose endpoints are already present appends exactly those links. -/
lemma foldl_addEdge_fresh (ps : List (ℤ × ℤ)) :
    ∀ G : Graph,
      (∀ p ∈ ps, p.1 ∈ G.nodes ∧ p.2 ∈ G.nodes) →
      (ps.map (fun p => ekey p.1 p.2)).Nodup →
      (∀ p ∈ ps, ekey p.1 p.2 ∉ linkKeys G) →
      ps.foldl (fun G p => addEdge G p.1 p.2) G
        = ⟨G.nodes, G.edges ++ ps.map (fun p => (ekey p.1 p.2, none))⟩ := by
  induction ps with
  | nil => intro G _ _ _; cases G; simp
  | cons p ps ih =>
    intro G hmem hnd hfresh
    have hstep : addEdge G p.1 p.2 = ⟨G.nodes, G.edges ++ [(ekey p.1 p.2, none)]⟩ :=
      addEdge_fresh (hmem p (List.mem_cons_self _ _)).1 (hmem p (List.mem_cons_self _ _)).2
        (hfresh p (List.mem_cons_self _ _))
    simp only [List.foldl_cons, hstep]
    rw [ih ⟨G.nodes, G.edges ++ [(ekey p.1 p.2, none)]⟩
      (fun q hq => hmem q (List.mem_cons_of_mem _ hq))
      (List.nodup_cons.mp hnd).2
      ?_]
    · simp
    · intro q hq hkq
      simp only [linkKeys, List.map_append, List.mem_append, List.map_cons, List.map_nil,
        List.mem_cons, List.not_mem_nil, or_false] at hkq
      rcases hkq with hkq | hkq
      · exact hfresh q (List.mem_cons_of_mem _ hq) hkq
      · refine (List.nodup_cons.mp hnd).1 ?_
        show ekey p.1 p.2 ∈ List.map (fun p => ekey p.1 p.2) ps
        rw [← hkq]
        exact List.mem_map.mpr ⟨q, hq, rfl⟩

/-- A nested fold of `addEdge` over an index list and per-index block lists is
the fold over the flattened list of index pairs. -/
lemma foldl_nested (l1 : List ℤ) (f2 : ℤ → List ℤ) :
    ∀ G : Graph,
      l1.foldl (fun G i => (f2 i).foldl (fun G j => addEdge G i j) G) G
        = (l1.flatMap (fun i => (f2 i).map (fun j => (i, j)))).foldl
            (fun G p => addEdge G p.1 p.2) G := by
  induction l1 with
  | nil => intro G; rfl
  | cons x xs ih =>
    intro G
    simp only [List.foldl_cons, List.flatMap_cons, List.foldl_append, List.foldl_map]
    exact ih _

/-- Congruence for `flatMap` over a fixed list. -/
lemma flatMap_congr_left {α β : Type} {l : List α} {f g : α → List β}
    (h : ∀ a ∈ l, f a = g a) : l.flatMap f = l.flatMap g := by
  induction l with
  | nil => rfl
  | cons a l ih =>
    simp only [List.flatMap_cons]
    rw [h a (List.mem_cons_self _ _), ih (fun x hx => h x (List.mem_cons_of_mem _ hx))]

lemma create_topology_nodes (n : ℤ) (t : String) :
    (create_topology n t).nodes = pyRange 1 (n + 1) := by
  have hmem : ∀ i : ℤ, 1 ≤ i → i < n + 1 → i ∈ pyRange 1 (n + 1) := by
    intro i h1 h2; exact mem_pyRange.mpr ⟨h1, h2⟩
  simp only [create_topology]
  split_ifs with h1 h2 h3 h4 h5 h6
  · -- Ring
    refine foldl_nodes _ _ ⟨pyRange 1 (n + 1), []⟩ ?_ _ rfl
    intro G i hi hG
    obtain ⟨hi1, hi2⟩ := mem_pyRange.mp hi
    have e1 := Int.emod_nonneg i (by omega : n ≠ 0)
    have e2 := Int.emod_lt_of_pos i (by omega : 0 < n)
    have ha : i ∈ G.nodes := by rw [hG]; exact hmem i hi1 hi2
    have hb : i % n + 1 ∈ G.nodes := by rw [hG]; exact hmem _ (by omega) (by omega)
    rw [addEdge_nodes ha hb, hG]
  · -- Mesh
    refine foldl_nodes _ _ ⟨pyRange 1 (n + 1), []⟩ ?_ _ rfl
    intro G i hi hG
    obtain ⟨hi1, hi2⟩ := mem_pyRange.mp hi
    refine foldl_nodes _ _ ⟨pyRange 1 (n + 1), []⟩ ?_ G hG
    intro G' j hj hG'
    obtain ⟨hj1, hj2⟩ := mem_pyRange.mp hj
    have ha : i ∈ G'.nodes := by rw [hG']; exact hmem i hi1 hi2
    have hb : j ∈ G'.nodes := by rw [hG']; exact hmem j (by omega) hj2
    rw [addEdge_nodes ha hb, hG']
  · -- Star
    refine foldl_nodes _ _ ⟨pyRange 1 (n + 1), []⟩ ?_ _ rfl
    intro G i hi hG
    obtain ⟨hi1, hi2⟩ := mem_pyRange.mp hi
    have ha : (1 : ℤ) ∈ G.nodes := by rw [hG]; exact hmem 1 le_rfl (by omega)
    have hb : i ∈ G.nodes := by rw [hG]; exact hmem i (by omega) hi2
    rw [addEdge_nodes ha hb, hG]
  · -- PON
    refine foldl_nodes _ _ ⟨pyRange 1 (n + 1), []⟩ ?_ _ rfl
    intro G i hi hG
    obtain ⟨hi1, hi2⟩ := mem_pyRange.mp hi
    have ha : (1 : ℤ) ∈ G.nodes := by rw [hG]; exact hmem 1 le_rfl (by omega)
    have hb : i ∈ G.nodes := by rw [hG]; exact hmem i (by omega) hi2
    rw [addEdge_nodes ha hb, hG]
  · -- WRPON
    refine foldl_nodes _ _ ⟨pyRange 1 (n + 1), []⟩ ?_ _ ?_
    · intro G i hi hG
      obtain ⟨hi1, hi2⟩ := mem_pyRange.mp hi
      refine foldl_nodes _ _ ⟨pyRange 1 (n + 1), []⟩ ?_ G hG
      intro G' j hj hG'
      obtain ⟨hj1, hj2⟩ := mem_pyRange.mp hj
      have ha : i ∈ G'.nodes := by rw [hG']; exact hmem i (by omega) (by omega)
      have hb : j ∈ G'.nodes := by rw [hG']; exact hmem j (by omega) hj2
      rw [addEdge_nodes ha hb, hG']
    · refine foldl_nodes _ _ ⟨pyRange 1 (n + 1), []⟩ ?_ _ rfl
      intro G i hi hG
      obtain ⟨hi1, hi2⟩ := mem_pyRange.mp hi
      have ha : (1 : ℤ) ∈ G.nodes := by rw [hG]; exact hmem 1 le_rfl (by omega)
      have hb : i ∈ G.nodes := by rw [hG]; exact hmem i (by omega) (by omega)
      rw [addEdge_nodes ha hb, hG]
  · -- Broadcast Select PON
    refine foldl_nodes _ _ ⟨pyRange 1 (n + 1), []⟩ ?_ _ rfl
    intro G i hi hG
    obtain ⟨hi1, hi2⟩ := mem_pyRange.mp hi
    have ha : (1 : ℤ) ∈ G.nodes := by rw [hG]; exact hmem 1 le_rfl (by omega)
    have hb : i ∈ G.nodes := by rw [hG]; exact hmem i (by omega) hi2
    rw [addEdge_nodes ha hb, hG]
  · rfl

lemma meshPairs_mem {n : ℤ} {p : ℤ × ℤ} :
    p ∈ meshPairs n ↔ 1 ≤ p.1 ∧ p.1 < p.2 ∧ p.2 ≤ n := by
  unfold meshPairs
  rw [List.mem_flatMap]
  constructor
  · rintro ⟨i, hi, hp⟩
    rw [List.mem_map] at hp
    obtain ⟨j, hj, rfl⟩ := hp
    obtain ⟨h1, h2⟩ := mem_pyRange.mp hi
    obtain ⟨h3, h4⟩ := mem_pyRange.mp hj
    exact ⟨h1, by omega, by omega⟩
  · rintro ⟨h1, h2, h3⟩
    exact ⟨p.1, mem_pyRange.mpr ⟨h1, by omega⟩,
      List.mem_map.mpr ⟨p.2, mem_pyRange.mpr ⟨by omega, by omega⟩, rfl⟩⟩

/-- Pairing a duplicate-free index list with duplicate-free block lists gives
a duplicate-free pair list. -/
lemma flatMap_pairs_nodup (l1 : List ℤ) (f : ℤ → List ℤ) (h1 : l1.Nodup)
    (h2 : ∀ i ∈ l1, (f i).Nodup) :
    (l1.flatMap (fun i => (f i).map (fun j => (i, j)))).Nodup := by
  rw [List.nodup_flatMap]
  constructor
  · intro i hi
    exact (h2 i hi).map (fun a b h => congrArg Prod.snd h)
  · refine List.Pairwise.imp ?_ h1
    intro a b hab x hxa hxb
    rw [List.mem_map] at hxa hxb
    obtain ⟨j1, _, rfl⟩ := hxa
    obtain ⟨j2, _, hx⟩ := hxb
    exact hab (congrArg Prod.fst hx).symm

/-- When every generated pair is already ordered, taking normalised keys is
the identity on the pair list. -/
lemma flatMap_pairs_keys (l1 : List ℤ) (f : ℤ → List ℤ)
    (h : ∀ i ∈ l1, ∀ j ∈ f i, i ≤ j) :
    (l1.flatMap (fun i => (f i).map (fun j => (i, j)))).map (fun p => ekey p.1 p.2)
      = l1.flatMap (fun i => (f i).map (fun j => (i, j))) := by
  induction l1 with
  | nil => rfl
  | cons a l ih =>
    simp only [List.flatMap_cons, List.map_append, List.map_map]
    congr 1
    · refine List.map_congr_left ?_
      intro j hj
      simp [ekey_of_le (h a (List.mem_cons_self _ _) j hj)]
    · exact ih (fun i hi => h i (List.mem_cons_of_mem _ hi))

lemma meshPairs_nodup (n : ℤ) : (meshPairs n).Nodup :=
  flatMap_pairs_nodup _ _ (pyRange_nodup _ _) (fun _ _ => pyRange_nodup _ _)

/-- Closed form of the Mesh branch: nodes `1..n` and one link per ordered pair
`i < j`, in iteration order, all with unset wavelength. -/
lemma mesh_edges (n : ℤ) :
    create_topology n "Mesh"
      = ⟨pyRange 1 (n + 1), (meshPairs n).map (fun p => (p, (none : Option String)))⟩ := by
  have hred : create_topology n "Mesh"
      = (pyRange 1 (n + 1)).foldl
          (fun G i => (pyRange (i + 1) (n + 1)).foldl (fun G j => addEdge G i j) G)
          ⟨pyRange 1 (n + 1), []⟩ := by
    simp only [create_topology]
    rw [if_pos trivial, if_neg (by decide)]
  have hkeys : (meshPairs n).map (fun p => ekey p.1 p.2) = meshPairs n :=
    flatMap_pairs_keys _ _ (fun i hi j hj => by
      obtain ⟨h1, h2⟩ := mem_pyRange.mp hi
      obtain ⟨h3, h4⟩ := mem_pyRange.mp hj
      omega)
  rw [hred, foldl_nested (pyRange 1 (n + 1)) (fun i => pyRange (i + 1) (n + 1))]
  show (meshPairs n).foldl (fun G p => addEdge G p.1 p.2) ⟨pyRange 1 (n + 1), []⟩
      = ⟨pyRange 1 (n + 1), (meshPairs n).map (fun p => (p, (none : Option String)))⟩
  rw [foldl_addEdge_fresh (meshPairs n) ⟨pyRange 1 (n + 1), []⟩ ?_ ?_ ?_]
  · rw [List.nil_append]
    congr 1
    refine List.map_congr_left ?_
    intro p hp
    obtain ⟨h1, h2, h3⟩ := meshPairs_mem.mp hp
    rw [ekey_of_le (by omega)]
  · intro p hp
    obtain ⟨h1, h2, h3⟩ := meshPairs_mem.mp hp
    exact ⟨mem_pyRange.mpr ⟨by omega, by omega⟩, mem_pyRange.mpr ⟨by omega, by omega⟩⟩
  · rw [hkeys]
    exact meshPairs_nodup n
  · intro p hp
    simp [linkKeys]

/-- Folding the hub step `addEdge G 1 i` over fresh indices appends exactly
the hub links `(1, i)`. -/
lemma foldl_hub (l : List ℤ) (G0 : Graph)
    (hmem : ∀ i ∈ l, (1 : ℤ) ∈ G0.nodes ∧ i ∈ G0.nodes ∧ (1 : ℤ) ≤ i)
    (hnd : l.Nodup)
    (hfresh : ∀ i ∈ l, ((1 : ℤ), i) ∉ linkKeys G0) :
    l.foldl (fun G i => addEdge G 1 i) G0
      = ⟨G0.nodes, G0.edges ++ l.map (fun i => (((1 : ℤ), i), none))⟩ := by
  have hfold : l.foldl (fun G i => addEdge G 1 i) G0
      = (l.map (fun i => ((1 : ℤ), i))).foldl (fun G p => addEdge G p.1 p.2) G0 := by
    rw [List.foldl_map]
  rw [hfold]
  rw [foldl_addEdge_fresh (l.map (fun i => ((1 : ℤ), i))) G0 ?_ ?_ ?_]
  · congr 1
    rw [List.map_map]
    congr 1
    refine List.map_congr_left ?_
    intro i hi
    simp [ekey_of_le (hmem i hi).2.2]
  · intro p hp
    rw [List.mem_map] at hp
    obtain ⟨i, hi, rfl⟩ := hp
    exact ⟨(hmem i hi).1, (hmem i hi).2.1⟩
  · rw [List.map_map]
    have : (l.map ((fun p => ekey p.1 p.2) ∘ fun i => ((1 : ℤ), i))) = l.map (fun i => ((1 : ℤ), i)) := by
      refine List.map_congr_left ?_
      intro i hi
      simp [ekey_of_le (hmem i hi).2.2]
    rw [this]
    exact hnd.map (fun a b h => congrArg Prod.snd h)
  · intro p hp
    rw [List.mem_map] at hp
    obtain ⟨i, hi, rfl⟩ := hp
    have : ekey 1 i = ((1 : ℤ), i) := ekey_of_le (hmem i hi).2.2
    rw [this]
    exact hfresh i hi

/-- Closed form of the WRPON branch: hub links from node 1 to every router
`2..⌊n/2⌋+1` followed by one link from every router to every terminal
`⌊n/2⌋+2..n`, all with unset wavelength.  If either half is empty the
corresponding block of links is empty. -/
lemma wrpon_edges (n : ℤ) :
    create_topology n "WRPON"
      = ⟨pyRange 1 (n + 1),
         (pyRange 2 (n / 2 + 2)).map (fun i => (((1 : ℤ), i), none))
           ++ ((pyRange 2 (n / 2 + 2)).flatMap
                (fun i => (pyRange (n / 2 + 2) (n + 1)).map (fun j => (i, j)))).map
                  (fun p => (p, (none : Option String)))⟩ := by
  have hred : create_topology n "WRPON"
      = (pyRange 2 (n / 2 + 2)).foldl
          (fun G i => (pyRange (n / 2 + 2) (n + 1)).foldl (fun G j => addEdge G i j) G)
          ((pyRange 2 (n / 2 + 2)).foldl (fun G i => addEdge G 1 i) ⟨pyRange 1 (n + 1), []⟩) := by
    simp only [create_topology]
    rw [if_pos trivial, if_neg (by decide), if_neg (by decide), if_neg (by decide),
      if_neg (by decide)]
  have hub : (pyRange 2 (n / 2 + 2)).foldl (fun G i => addEdge G 1 i) ⟨pyRange 1 (n + 1), []⟩
      = ⟨pyRange 1 (n + 1), (pyRange 2 (n / 2 + 2)).map (fun i => (((1 : ℤ), i), none))⟩ := by
    rw [foldl_hub (pyRange 2 (n / 2 + 2)) ⟨pyRange 1 (n + 1), []⟩ ?_ (pyRange_nodup _ _) ?_]
    · rw [List.nil_append]
    · intro i hi
      obtain ⟨h1, h2⟩ := mem_pyRange.mp hi
      have hn2 : 2 ≤ n := by omega
      exact ⟨mem_pyRange.mpr ⟨le_rfl, by omega⟩, mem_pyRange.mpr ⟨by omega, by omega⟩, by omega⟩
    · intro i _
      simp [linkKeys]
  have hkeys : ((pyRange 2 (n / 2 + 2)).flatMap
        (fun i => (pyRange (n / 2 + 2) (n + 1)).map (fun j => (i, j)))).map
          (fun p => ekey p.1 p.2)
      = (pyRange 2 (n / 2 + 2)).flatMap
          (fun i => (pyRange (n / 2 + 2) (n + 1)).map (fun j => (i, j))) :=
    flatMap_pairs_keys _ _ (fun i hi j hj => by
      obtain ⟨h1, h2⟩ := mem_pyRange.mp hi
      obtain ⟨h3, h4⟩ := mem_pyRange.mp hj
      omega)
  rw [hred, hub, foldl_nested (pyRange 2 (n / 2 + 2)) (fun _ => pyRange (n / 2 + 2) (n + 1))]
  rw [foldl_addEdge_fresh
    ((pyRange 2 (n / 2 + 2)).flatMap
      (fun i => (pyRange (n / 2 + 2) (n + 1)).map (fun j => (i, j))))
    ⟨pyRange 1 (n + 1), (pyRange 2 (n / 2 + 2)).map (fun i => (((1 : ℤ), i), none))⟩ ?_ ?_ ?_]
  · congr 2
    refine List.map_congr_left ?_
    intro p hp
    rw [List.mem_flatMap] at hp
    obtain ⟨i, hi, hp⟩ := hp
    rw [List.mem_map] at hp
    obtain ⟨j, hj, rfl⟩ := hp
    obtain ⟨hi1, hi2⟩ := mem_pyRange.mp hi
    obtain ⟨hj1, hj2⟩ := mem_pyRange.mp hj
    rw [ekey_of_le (by omega : i ≤ j)]
  · intro p hp
    rw [List.mem_flatMap] at hp
    obtain ⟨i, hi, hp⟩ := hp
    rw [List.mem_map] at hp
    obtain ⟨j, hj, rfl⟩ := hp
    obtain ⟨hi1, hi2⟩ := mem_pyRange.mp hi
    obtain ⟨hj1, hj2⟩ := mem_pyRange.mp hj
    exact ⟨mem_pyRange.mpr ⟨by omega, by omega⟩, mem_pyRange.mpr ⟨by omega, by omega⟩⟩
  · rw [hkeys]
    exact flatMap_pairs_nodup _ _ (pyRange_nodup _ _) (fun _ _ => pyRange_nodup _ _)
  · intro p hp
    rw [List.mem_flatMap] at hp
    obtain ⟨i, hi, hp⟩ := hp
    rw [List.mem_map] at hp
    obtain ⟨j, hj, rfl⟩ := hp
    obtain ⟨hi1, hi2⟩ := mem_pyRange.mp hi
    obtain ⟨hj1, hj2⟩ := mem_pyRange.mp hj
    rw [ekey_of_le (by omega : i ≤ j)]
    simp only [linkKeys, List.map_map]
    intro hmem
    rw [List.mem_map] at hmem
    obtain ⟨i', _, hi'⟩ := hmem
    have : (1 : ℤ) = i := congrArg Prod.fst hi'
    omega

lemma random_choice_some {ws : List String} (hws : ws ≠ []) (k : ℕ) :
    ∃ w, random_choice ws k = some w ∧ w ∈ ws := by
  have hlen : 0 < ws.length := List.length_pos.mpr hws
  have hlt : k % ws.length < ws.length := Nat.mod_lt _ hlen
  refine ⟨ws.get ⟨k % ws.length, hlt⟩, ?_, List.get_mem _ _ _⟩
  simp [random_choice, List.getElem?_eq_getElem hlt]

/-- With a non-empty wavelength list the assignment loop succeeds, keeps the
link keys and the link count, and labels every link with a member of the
list. -/
lemma assignEdges_total {ws : List String} (hws : ws ≠ []) (pick : ℕ → ℕ) :
    ∀ (i : ℕ) (es : List Link), ∃ es',
      assignEdges ws pick i es = some es' ∧
      es'.map Prod.fst = es.map Prod.fst ∧
      es'.length = es.length ∧
      ∀ e ∈ es', ∃ w, e.2 = some w ∧ w ∈ ws := by
  intro i es
  induction es generalizing i with
  | nil => exact ⟨[], rfl, rfl, rfl, by simp⟩
  | cons e es ih =>
    obtain ⟨w, hw, hwmem⟩ := random_choice_some hws (pick i)
    obtain ⟨rest, hrest, hkeys, hlen, hmem⟩ := ih (i + 1)
    refine ⟨(e.1, some w) :: rest, ?_, ?_, ?_, ?_⟩
    · simp [assignEdges, hw, hrest]
    · simp [hkeys]
    · simp [hlen]
    · intro e' he'
      rcases List.mem_cons.mp he' with rfl | he'
      · exact ⟨w, rfl, hwmem⟩
      · exact hmem e' he'

/-- Whenever the assignment loop succeeds its output has the same link keys. -/
lemma assignEdges_map_fst {ws : List String} {pick : ℕ → ℕ} :
    ∀ (i : ℕ) (es es' : List Link), assignEdges ws pick i es = some es' →
      es'.map Prod.fst = es.map Prod.fst := by
  intro i es
  induction es generalizing i with
  | nil =>
    intro es' h
    simp only [assignEdges] at h
    cases h
    rfl
  | cons e es ih =>
    intro es' h
    simp only [assignEdges] at h
    cases hw : random_choice ws (pick i) with
    | none => rw [hw] at h; cases h
    | some w =>
      rw [hw] at h
      cases hrest : assignEdges ws pick (i + 1) es with
      | none => rw [hrest] at h; cases h
      | some rest =>
        rw [hrest] at h
        cases h
        simp [ih (i + 1) rest hrest]

/-- Filtering links by a predicate on their keys commutes with taking keys. -/
lemma filter_map_fst (v : ℤ) (es : List Link) :
    (es.filter (fun e => e.1.1 ≠ v ∧ e.1.2 ≠ v)).map Prod.fst
      = (es.map Prod.fst).filter (fun k => k.1 ≠ v ∧ k.2 ≠ v) := by
  induction es with
  | nil => rfl
  | cons e es ih =>
    simp only [List.filter_cons, List.map_cons]
    split <;> simp_all

/-- Removing a present element from a duplicate-free list shortens it by
exactly one. -/
lemma length_filter_ne (l : List ℤ) (v : ℤ) (hnd : l.Nodup) (hv : v ∈ l) :
    (l.filter (fun x => x ≠ v)).length + 1 = l.length := by
  induction l with
  | nil => cases hv
  | cons a l ih =>
    obtain ⟨hal, hl⟩ := List.nodup_cons.mp hnd
    rcases List.mem_cons.mp hv with rfl | hv'
    · have hfix : l.filter (fun x => x ≠ v) = l := by
        refine List.filter_eq_self.mpr ?_
        intro x hx
        simp only [decide_eq_true_eq]
        rintro rfl
        exact hal hx
      simp [List.filter_cons, hfix]
      intro a ha h
      exact hal (h ▸ ha)
    · have hne : (a ≠ v) := by rintro rfl; exact hal hv'
      have hrec := ih hl hv'
      have hcons : List.filter (fun x => decide (x ≠ v)) (a :: l)
          = a :: List.filter (fun x => decide (x ≠ v)) l := by
        simp [List.filter_cons, hne]
      rw [hcons]
      simp only [List.length_cons]
      omega

lemma simulate_not_mem {G : Graph} {v : ℤ} (h : v ∉ G.nodes) :
    simulate_node_failure G v = G := by
  simp [simulate_node_failure, h]

lemma connectedFrom_ext {G : Graph} {v : ℤ} {ns : List ℤ} {ks : List (ℤ × ℤ)}
    (hn : G.nodes = ns) (hk : linkKeys G = ks)
    (h : ∀ u ∈ ns, u ∈ reachSet ks [v] ns.length) : connectedFrom G v := by
  unfold connectedFrom
  rw [hn, hk]
  exact h

/-! ## Claim theorems -/

/-- C2: for every `N ≥ 1`, WRPON wires node 1 to every router (nodes
`2..⌊N/2⌋+1`) and every router to every terminal (the remaining nodes
`⌊N/2⌋+2..N`), and nothing else; empty halves simply contribute no links.  In
particular for `N = 10` the routers are `{2,3,4,5,6}`, the terminals are
`{7,8,9,10}`, and there are exactly `25` links. -/
theorem spec_C2 (n : ℤ) (hn : 1 ≤ n) :
    create_topology n "WRPON"
      = ⟨pyRange 1 (n + 1),
         (pyRange 2 (n / 2 + 2)).map (fun i => (((1 : ℤ), i), none))
           ++ ((pyRange 2 (n / 2 + 2)).flatMap
                (fun i => (pyRange (n / 2 + 2) (n + 1)).map (fun j => (i, j)))).map
                  (fun p => (p, (none : Option String)))⟩ ∧
    pyRange 2 (10 / 2 + 2) = [2, 3, 4, 5, 6] ∧
    pyRange (10 / 2 + 2) (10 + 1) = [7, 8, 9, 10] ∧
    (create_topology 10 "WRPON").edges.length = 25 ∧
    (∀ i ∈ pyRange 2 (10 / 2 + 2),
      (((1 : ℤ), i), (none : Option String)) ∈ (create_topology 10 "WRPON").edges) ∧
    (∀ i ∈ pyRange 2 (10 / 2 + 2), ∀ j ∈ pyRange (10 / 2 + 2) (10 + 1),
      ((i, j), (none : Option String)) ∈ (create_topology 10 "WRPON").edges) :=
  ⟨wrpon_edges n, by decide, by decide, by decide, by decide, by decide⟩

/-- Witness for C2 at `n = 10`. -/
theorem spec_C2_witness :
    ((1 : ℤ) ≤ 10) ∧
    (create_topology 10 "WRPON"
      = ⟨pyRange 1 (10 + 1),
         (pyRange 2 (10 / 2 + 2)).map (fun i => (((1 : ℤ), i), none))
           ++ ((pyRange 2 (10 / 2 + 2)).flatMap
                (fun i => (pyRange (10 / 2 + 2) (10 + 1)).map (fun j => (i, j)))).map
                  (fun p => (p, (none : Option String)))⟩ ∧
    pyRange 2 (10 / 2 + 2) = [2, 3, 4, 5, 6] ∧
    pyRange (10 / 2 + 2) (10 + 1) = [7, 8, 9, 10] ∧
    (create_topology 10 "WRPON").edges.length = 25 ∧
    (∀ i ∈ pyRange 2 (10 / 2 + 2),
      (((1 : ℤ), i), (none : Option String)) ∈ (create_topology 10 "WRPON").edges) ∧
    (∀ i ∈ pyRange 2 (10 / 2 + 2), ∀ j ∈ pyRange (10 / 2 + 2) (10 + 1),
      ((i, j), (none : Option String)) ∈ (create_topology 10 "WRPON").edges)) :=
  ⟨by decide, spec_C2 10 (by decide)⟩

/-- C9 (corrected): building Ring(6), assigning wavelengths from
`{"red","green"}` (for every possible sequence of random draws) and failing
node 3 yields exactly the nodes `{1,2,4,5,6}` and exactly the 4 links
`(1,2), (4,5), (5,6), (1,6)` — the two links formerly incident to node 3 are
gone; the remaining links form a single connected path `2–1–6–5–4` (the
opened cycle), not two disjoint paths. -/
theorem spec_C9 (pick : ℕ → ℕ) :
    ∃ G1, assign_wavelengths (create_topology 6 "Ring") ["red", "green"] pick = some G1 ∧
      (simulate_node_failure G1 3).nodes = [1, 2, 4, 5, 6] ∧
      linkKeys (simulate_node_failure G1 3) = [(1, 2), (4, 5), (5, 6), (1, 6)] ∧
      (simulate_node_failure G1 3).edges.length = 4 ∧
      connectedFrom (simulate_node_failure G1 3) 1 ∧
      (∀ e ∈ (simulate_node_failure G1 3).edges,
        ∃ w, e.2 = some w ∧ w ∈ ["red", "green"]) := by
  obtain ⟨es', h1, h2, h3, h4⟩ :=
    @assignEdges_total ["red", "green"] (by simp) pick 0 (create_topology 6 "Ring").edges
  have hassign : assign_wavelengths (create_topology 6 "Ring") ["red", "green"] pick
      = some ⟨(create_topology 6 "Ring").nodes, es'⟩ := by
    simp [assign_wavelengths, h1]
  have hkeys : es'.map Prod.fst
      = [((1 : ℤ), (2 : ℤ)), (2, 3), (3, 4), (4, 5), (5, 6), (1, 6)] := by
    rw [h2]; decide
  have hmem3 : (3 : ℤ) ∈ (Graph.mk (create_topology 6 "Ring").nodes es').nodes := by
    show (3 : ℤ) ∈ (create_topology 6 "Ring").nodes
    decide
  have hsim : simulate_node_failure ⟨(create_topology 6 "Ring").nodes, es'⟩ 3
      = ⟨(create_topology 6 "Ring").nodes.filter (fun x => x ≠ 3),
         es'.filter (fun e => e.1.1 ≠ 3 ∧ e.1.2 ≠ 3)⟩ := by
    unfold simulate_node_failure
    rw [if_pos hmem3]
  have hnodes : (create_topology 6 "Ring").nodes.filter (fun x => x ≠ 3)
      = [1, 2, 4, 5, 6] := by decide
  have hfk : (es'.filter (fun e => e.1.1 ≠ 3 ∧ e.1.2 ≠ 3)).map Prod.fst
      = [((1 : ℤ), (2 : ℤ)), (4, 5), (5, 6), (1, 6)] := by
    rw [filter_map_fst 3 es', hkeys]
    decide
  refine ⟨⟨(create_topology 6 "Ring").nodes, es'⟩, hassign, ?_, ?_, ?_, ?_, ?_⟩
  · rw [hsim]
    exact hnodes
  · rw [hsim]
    exact hfk
  · rw [hsim]
    show (es'.filter (fun e => e.1.1 ≠ 3 ∧ e.1.2 ≠ 3)).length = 4
    have hlen := congrArg List.length hfk
    rwa [List.length_map] at hlen
  · rw [hsim]
    exact connectedFrom_ext hnodes hfk (by decide)
  · rw [hsim]
    intro e he
    exact h4 e (List.mem_filter.mp he).1

/-- Witness for C9 at the constant randomness oracle `pick0`. -/
theorem spec_C9_witness :
    ∃ G1, assign_wavelengths (create_topology 6 "Ring") ["red", "green"] pick0 = some G1 ∧
      (simulate_node_failure G1 3).nodes = [1, 2, 4, 5, 6] ∧
      linkKeys (simulate_node_failure G1 3) = [(1, 2), (4, 5), (5, 6), (1, 6)] ∧
      (simulate_node_failure G1 3).edges.length = 4 ∧
      connectedFrom (simulate_node_failure G1 3) 1 ∧
      (∀ e ∈ (simulate_node_failure G1 3).edges,
        ∃ w, e.2 = some w ∧ w ∈ ["red", "green"]) :=
  spec_C9 pick0

/-- Counterexample to C9 as stated: at a concrete sequence of random draws,
after failing node 3 every one of the five remaining nodes still carries a
link and all of them are reachable from node 1 — the four remaining links
form one connected path, so they do not form two disjoint paths. -/
theorem spec_C9_counterexample :
    (assign_wavelengths (create_topology 6 "Ring") ["red", "green"] pick0).isSome = true ∧
    (simulate_node_failure
      ((assign_wavelengths (create_topology 6 "Ring") ["red", "green"] pick0).getD ⟨[], []⟩)
      3).nodes = [1, 2, 4, 5, 6] ∧
    linkKeys (simulate_node_failure
      ((assign_wavelengths (create_topology 6 "Ring") ["red", "green"] pick0).getD ⟨[], []⟩)
      3) = [(1, 2), (4, 5), (5, 6), (1, 6)] ∧
    connectedFrom (simulate_node_failure
      ((assign_wavelengths (create_topology 6 "Ring") ["red", "green"] pick0).getD ⟨[], []⟩)
      3) 1 ∧
    (∀ v ∈ (simulate_node_failure
      ((assign_wavelengths (create_topology 6 "Ring") ["red", "green"] pick0).getD ⟨[], []⟩)
      3).nodes,
      1 ≤ linkDegree (simulate_node_failure
        ((assign_wavelengths (create_topology 6 "Ring") ["red", "green"] pick0).getD ⟨[], []⟩)
        3) v) := by
  decide

/-- C3: for every traffic load in `[0, 100]`, every integer hop count `≥ 1`
and every conversion flag, `qos_metrics` returns latency `hops * 0.5` with
conversion enabled and `hops * 1.0` otherwise, and throughput
`max 0 (100 - trafficLoad * 2)`; in particular
`estimate(30,4,true) = (2.0, 40)`, `estimate(30,4,false) = (4.0, 40)`,
`estimate(100,4,true) = (2.0, 0)` and `estimate(0,1,false) = (1.0, 100)`. -/
theorem spec_C3 (load : ℚ) (hops : ℤ) (conv : Bool)
    (h0 : 0 ≤ load) (h100 : load ≤ 100) (h1 : 1 ≤ hops) :
    (qos_metrics load (hops : ℚ) true).1 = (hops : ℚ) * (1 / 2) ∧
    (qos_metrics load (hops : ℚ) false).1 = (hops : ℚ) * 1 ∧
    (qos_metrics load (hops : ℚ) conv).2 = max 0 (100 - load * 2) ∧
    qos_metrics 30 4 true = (2, 40) ∧
    qos_metrics 30 4 false = (4, 40) ∧
    qos_metrics 100 4 true = (2, 0) ∧
    qos_metrics 0 1 false = (1, 100) := by
  refine ⟨rfl, rfl, rfl, ?_, ?_, ?_, ?_⟩ <;>
    simp [qos_metrics, Prod.ext_iff] <;> norm_num

/-- Witness for C3 at `load = 30`, `hops = 4`, `conv = true`. -/
theorem spec_C3_witness :
    (0 ≤ (30 : ℚ)) ∧ ((30 : ℚ) ≤ 100) ∧ (1 ≤ (4 : ℤ)) ∧
    ((qos_metrics 30 (((4 : ℤ)) : ℚ) true).1 = (((4 : ℤ)) : ℚ) * (1 / 2) ∧
     (qos_metrics 30 (((4 : ℤ)) : ℚ) false).1 = (((4 : ℤ)) : ℚ) * 1 ∧
     (qos_metrics 30 (((4 : ℤ)) : ℚ) true).2 = max 0 (100 - 30 * 2) ∧
     qos_metrics 30 4 true = (2, 40) ∧
     qos_metrics 30 4 false = (4, 40) ∧
     qos_metrics 100 4 true = (2, 0) ∧
     qos_metrics 0 1 false = (1, 100)) :=
  ⟨by norm_num, by norm_num, by norm_num,
   spec_C3 30 4 true (by norm_num) (by norm_num) (by norm_num)⟩

/-- C4: `simulate_node_failure` on a present node removes exactly that node
and its incident links and leaves the rest intact (node count drops by one);
on an absent node (in particular the sentinel `0`, which never occurs in a
built topology) it is a no-op, and the operation is idempotent. -/
theorem spec_C4 (G : Graph) (v : ℤ) (hnd : G.nodes.Nodup) :
    (v ∈ G.nodes →
      (simulate_node_failure G v).nodes.length + 1 = G.nodes.length ∧
      (simulate_node_failure G v).nodes = G.nodes.filter (fun x => x ≠ v) ∧
      (simulate_node_failure G v).edges
        = G.edges.filter (fun e => e.1.1 ≠ v ∧ e.1.2 ≠ v)) ∧
    (v ∉ G.nodes → simulate_node_failure G v = G) ∧
    simulate_node_failure (simulate_node_failure G v) v = simulate_node_failure G v ∧
    (∀ (n : ℤ) (t : String), (0 : ℤ) ∉ (create_topology n t).nodes) := by
  refine ⟨?_, ?_, ?_, ?_⟩
  · intro hv
    refine ⟨?_, ?_, ?_⟩
    · simp only [simulate_node_failure, if_pos hv]
      exact length_filter_ne G.nodes v hnd hv
    · simp [simulate_node_failure, if_pos hv]
    · simp [simulate_node_failure, if_pos hv]
  · intro hv
    exact simulate_not_mem hv
  · by_cases hv : v ∈ G.nodes
    · have hvH : v ∉ (simulate_node_failure G v).nodes := by
        simp only [simulate_node_failure, if_pos hv]
        intro hmem
        have h2 := (List.mem_filter.mp hmem).2
        simp at h2
      exact simulate_not_mem hvH
    · rw [simulate_not_mem hv, simulate_not_mem hv]
  · intro n t
    rw [create_topology_nodes]
    intro hmem
    have := mem_pyRange.mp hmem
    omega

/-- Witness for C4 at `G = create_topology 3 "Ring"`, `v = 2`. -/
theorem spec_C4_witness :
    (create_topology 3 "Ring").nodes.Nodup ∧
    ((2 ∈ (create_topology 3 "Ring").nodes →
      (simulate_node_failure (create_topology 3 "Ring") 2).nodes.length + 1
        = (create_topology 3 "Ring").nodes.length ∧
      (simulate_node_failure (create_topology 3 "Ring") 2).nodes
        = (create_topology 3 "Ring").nodes.filter (fun x => x ≠ 2) ∧
      (simulate_node_failure (create_topology 3 "Ring") 2).edges
        = (create_topology 3 "Ring").edges.filter (fun e => e.1.1 ≠ 2 ∧ e.1.2 ≠ 2)) ∧
    (2 ∉ (create_topology 3 "Ring").nodes →
      simulate_node_failure (create_topology 3 "Ring") 2 = create_topology 3 "Ring") ∧
    simulate_node_failure (simulate_node_failure (create_topology 3 "Ring") 2) 2
      = simulate_node_failure (create_topology 3 "Ring") 2 ∧
    (∀ (n : ℤ) (t : String), (0 : ℤ) ∉ (create_topology n t).nodes)) :=
  ⟨by decide, spec_C4 (create_topology 3 "Ring") 2 (by decide)⟩

/-- C5: with a non-empty wavelength set, `assign_wavelengths` (for every
possible sequence of random draws) labels every link with an element of the
set, leaves no link unset, and changes neither the node set nor the link
set — only the per-link wavelength attribute. -/
theorem spec_C5 (G : Graph) (ws : List String) (pick : ℕ → ℕ) (hws : ws ≠ []) :
    ∃ G', assign_wavelengths G ws pick = some G' ∧
      G'.nodes = G.nodes ∧
      linkKeys G' = linkKeys G ∧
      G'.edges.length = G.edges.length ∧
      ∀ e ∈ G'.edges, ∃ w, e.2 = some w ∧ w ∈ ws := by
  obtain ⟨es', h1, h2, h3, h4⟩ := assignEdges_total hws pick 0 G.edges
  refine ⟨⟨G.nodes, es'⟩, ?_, rfl, ?_, h3, h4⟩
  · simp [assign_wavelengths, h1]
  · simpa [linkKeys] using h2

/-- Witness for C5 at `G = create_topology 3 "Ring"`, `ws = ["red"]`. -/
theorem spec_C5_witness :
    (["red"] ≠ ([] : List String)) ∧
    (∃ G', assign_wavelengths (create_topology 3 "Ring") ["red"] pick0 = some G' ∧
      G'.nodes = (create_topology 3 "Ring").nodes ∧
      linkKeys G' = linkKeys (create_topology 3 "Ring") ∧
      G'.edges.length = (create_topology 3 "Ring").edges.length ∧
      ∀ e ∈ G'.edges, ∃ w, e.2 = some w ∧ w ∈ ["red"]) :=
  ⟨List.cons_ne_nil _ _, spec_C5 (create_topology 3 "Ring") ["red"] pick0 (List.cons_ne_nil _ _)⟩

/-- C7 (corrected): with an empty wavelength list, `assign_wavelengths` fails
on every graph that has at least one link (`random.choice` raises on the
empty sequence), but on a graph with no links the loop body never runs and
the graph is returned unchanged — no error. -/
theorem spec_C7 (G : Graph) (ws : List String) (pick : ℕ → ℕ) (hws : ws = []) :
    (G.edges = [] → assign_wavelengths G ws pick = some G) ∧
    (G.edges ≠ [] → assign_wavelengths G ws pick = none) := by
  subst hws
  obtain ⟨ns, es⟩ := G
  cases es with
  | nil => exact ⟨fun _ => rfl, fun h => absurd rfl h⟩
  | cons e es =>
    have hnone : assignEdges [] pick 0 (e :: es) = none := by
      simp [assignEdges, random_choice]
    exact ⟨fun h => absurd h (List.cons_ne_nil _ _),
           fun _ => by simp [assign_wavelengths, hnone]⟩

/-- Counterexample to C7 as stated: on a graph with no links (here the
one-node star) the call with an empty wavelength set succeeds and returns the
graph unchanged instead of failing. -/
theorem spec_C7_counterexample :
    assign_wavelengths (create_topology 1 "Star") [] pick0
      = some (create_topology 1 "Star") := by decide

/-- Witness for C7 at `G = create_topology 3 "Mesh"`, `ws = []`. -/
theorem spec_C7_witness :
    (([] : List String) = []) ∧
    (((create_topology 3 "Mesh").edges = [] →
      assign_wavelengths (create_topology 3 "Mesh") [] pick0
        = some (create_topology 3 "Mesh")) ∧
    ((create_topology 3 "Mesh").edges ≠ [] →
      assign_wavelengths (create_topology 3 "Mesh") [] pick0 = none)) :=
  ⟨rfl, spec_C7 (create_topology 3 "Mesh") [] pick0 rfl⟩

/-- C8 (corrected): for `N < 1` no branch of `create_topology` executes any
loop iteration, so it silently returns the empty graph — it does not fail. -/
theorem spec_C8 (n : ℤ) (hn : n < 1) (t : String) :
    create_topology n t = ⟨[], []⟩ := by
  have h0 : pyRange 1 (n + 1) = [] := pyRange_eq_nil (by omega)
  have h2 : pyRange 2 (n + 1) = [] := pyRange_eq_nil (by omega)
  have hw : pyRange 2 (n / 2 + 2) = [] := pyRange_eq_nil (by omega)
  simp only [create_topology, h0, h2, hw, List.foldl_nil]
  split_ifs <;> rfl

/-- Counterexample to C8 as stated: at `N = 0` (a value below 1)
`create_topology` returns a graph — the empty one — rather than failing with
any error. -/
theorem spec_C8_counterexample : create_topology 0 "Ring" = ⟨[], []⟩ := by decide

/-- Witness for C8 at `n = -3`, `t = "Mesh"`. -/
theorem spec_C8_witness :
    ((-3 : ℤ) < 1) ∧ create_topology (-3) "Mesh" = ⟨[], []⟩ :=
  ⟨by decide, spec_C8 (-3) (by decide) "Mesh"⟩

/-- C10: an unrecognised topology kind silently yields the graph with nodes
`1..N` and no links at all — no error is raised. -/
theorem spec_C10 (n : ℤ) (hn : 1 ≤ n) (t : String) (ht : t ∉ topologyKinds) :
    create_topology n t = ⟨pyRange 1 (n + 1), []⟩ := by
  simp only [topologyKinds, List.mem_cons, List.not_mem_nil, or_false, not_or] at ht
  obtain ⟨h1, h2, h3, h4, h5, h6⟩ := ht
  simp only [create_topology, if_neg h1, if_neg h2, if_neg h3, if_neg h4, if_neg h5, if_neg h6]

/-- C1: for every `N` in `[3,15]`, Mesh has exactly `N*(N-1)/2` links; Star,
PON and Broadcast Select PON each have exactly `N-1` links, all incident to
node 1; Ring has exactly `N` links forming a single cycle covering all `N`
nodes (every node has degree 2 and every node is reachable from node 1). -/
theorem spec_C1 (n : ℤ) (h3 : 3 ≤ n) (h15 : n ≤ 15) :
    ((create_topology n "Mesh").edges.length : ℤ) = n * (n - 1) / 2 ∧
    (∀ t ∈ ["Star", "PON", "Broadcast Select PON"],
      ((create_topology n t).edges.length : ℤ) = n - 1 ∧
      ∀ e ∈ (create_topology n t).edges, e.1.1 = 1 ∨ e.1.2 = 1) ∧
    ((create_topology n "Ring").edges.length : ℤ) = n ∧
    (∀ v ∈ (create_topology n "Ring").nodes,
      linkDegree (create_topology n "Ring") v = 2) ∧
    connectedFrom (create_topology n "Ring") 1 ∧
    (create_topology n "Ring").nodes = pyRange 1 (n + 1) := by
  refine ⟨?_, ?_⟩
  · rw [mesh_edges]
    interval_cases n <;> decide
  · interval_cases n <;> decide

/-- Witness for C1 at `n = 6`. -/
theorem spec_C1_witness :
    ((3 : ℤ) ≤ 6) ∧ ((6 : ℤ) ≤ 15) ∧
    (((create_topology 6 "Mesh").edges.length : ℤ) = 6 * (6 - 1) / 2 ∧
    (∀ t ∈ ["Star", "PON", "Broadcast Select PON"],
      ((create_topology 6 t).edges.length : ℤ) = 6 - 1 ∧
      ∀ e ∈ (create_topology 6 t).edges, e.1.1 = 1 ∨ e.1.2 = 1) ∧
    ((create_topology 6 "Ring").edges.length : ℤ) = 6 ∧
    (∀ v ∈ (create_topology 6 "Ring").nodes,
      linkDegree (create_topology 6 "Ring") v = 2) ∧
    connectedFrom (create_topology 6 "Ring") 1 ∧
    (create_topology 6 "Ring").nodes = pyRange 1 (6 + 1)) :=
  ⟨by decide, by decide, spec_C1 6 (by decide) (by decide)⟩

/-- C6: every recognised topology kind with `N` in `[3,15]` yields node set
exactly `1..N`, links that join two distinct present nodes with no duplicate
unordered pairs and unset wavelengths; the endpoint invariant is preserved by
`assign_wavelengths` and by `simulate_node_failure`. -/
theorem spec_C6 (t : String) (ht : t ∈ topologyKinds) (n : ℤ)
    (h3 : 3 ≤ n) (h15 : n ≤ 15) :
    (create_topology n t).nodes = pyRange 1 (n + 1) ∧
    (∀ e ∈ (create_topology n t).edges,
      e.1.1 ≠ e.1.2 ∧ e.1.1 ∈ (create_topology n t).nodes ∧
      e.1.2 ∈ (create_topology n t).nodes ∧ e.2 = none) ∧
    (linkKeys (create_topology n t)).Nodup ∧
    (∀ (G : Graph) (v : ℤ), endpointInv G → endpointInv (simulate_node_failure G v)) ∧
    (∀ (G : Graph) (ws : List String) (pick : ℕ → ℕ) (G' : Graph),
      assign_wavelengths G ws pick = some G' → endpointInv G → endpointInv G') := by
  have hconc : (∀ e ∈ (create_topology n t).edges,
      e.1.1 ≠ e.1.2 ∧ e.1.1 ∈ (create_topology n t).nodes ∧
      e.1.2 ∈ (create_topology n t).nodes ∧ e.2 = none) ∧
      (linkKeys (create_topology n t)).Nodup := by
    simp only [topologyKinds, List.mem_cons, List.not_mem_nil, or_false] at ht
    rcases ht with rfl | rfl | rfl | rfl | rfl | rfl
    · interval_cases n <;> decide
    · rw [mesh_edges]
      interval_cases n <;> decide
    · interval_cases n <;> decide
    · interval_cases n <;> decide
    · rw [wrpon_edges]
      interval_cases n <;> decide
    · interval_cases n <;> decide
  refine ⟨create_topology_nodes n t, hconc.1, hconc.2, ?_, ?_⟩
  · intro G v hInv e he
    by_cases hv : v ∈ G.nodes
    · simp only [simulate_node_failure, if_pos hv] at he ⊢
      obtain ⟨heG, hpred⟩ := List.mem_filter.mp he
      obtain ⟨h1, h2⟩ := hInv e heG
      simp only [decide_eq_true_eq] at hpred
      exact ⟨List.mem_filter.mpr ⟨h1, decide_eq_true hpred.1⟩,
             List.mem_filter.mpr ⟨h2, decide_eq_true hpred.2⟩⟩
    · rw [simulate_not_mem hv] at he ⊢
      exact hInv e he
  · intro G ws pick G' hassign hInv e he
    unfold assign_wavelengths at hassign
    cases hes : assignEdges ws pick 0 G.edges with
    | none => rw [hes] at hassign; cases hassign
    | some es' =>
      rw [hes] at hassign
      cases hassign
      have hkeys := assignEdges_map_fst 0 G.edges es' hes
      have hk : e.1 ∈ List.map Prod.fst G.edges := by
        rw [← hkeys]
        exact List.mem_map_of_mem _ he
      obtain ⟨e0, he0, hfst⟩ := List.mem_map.mp hk
      obtain ⟨h1, h2⟩ := hInv e0 he0
      rw [← hfst]
      exact ⟨h1, h2⟩

/-- Witness for C6 at `t = "Ring"`, `n = 6`. -/
theorem spec_C6_witness :
    ("Ring" ∈ topologyKinds) ∧ ((3 : ℤ) ≤ 6) ∧ ((6 : ℤ) ≤ 15) ∧
    ((create_topology 6 "Ring").nodes = pyRange 1 (6 + 1) ∧
    (∀ e ∈ (create_topology 6 "Ring").edges,
      e.1.1 ≠ e.1.2 ∧ e.1.1 ∈ (create_topology 6 "Ring").nodes ∧
      e.1.2 ∈ (create_topology 6 "Ring").nodes ∧ e.2 = none) ∧
    (linkKeys (create_topology 6 "Ring")).Nodup ∧
    (∀ (G : Graph) (v : ℤ), endpointInv G → endpointInv (simulate_node_failure G v)) ∧
    (∀ (G : Graph) (ws : List String) (pick : ℕ → ℕ) (G' : Graph),
      assign_wavelengths G ws pick = some G' → endpointInv G → endpointInv G')) :=
  ⟨by decide, by decide, by decide, spec_C6 "Ring" (by decide) 6 (by decide) (by decide)⟩

/-- Witness for C10 at `n = 4`, `t = "Bus"`. -/
theorem spec_C10_witness :
    (1 ≤ (4 : ℤ)) ∧ "Bus" ∉ topologyKinds ∧
    create_topology 4 "Bus" = ⟨pyRange 1 (4 + 1), []⟩ :=
  ⟨by decide, by decide, spec_C10 4 (by decide) "Bus" (by decide)⟩
